import Mathlib

/-!
A shallow embedding of the image-sequence detector `lss.py`.

The Python source contains one non-trivial pipeline, `detect_sequences`:
a filename pattern matcher (the regex instantiated as
`^(.*?)(\.\w+)?\.(\d+)\.(\w+)$`), a depth-bounded directory walk built on
`os.walk`, grouping of matched files into sequences keyed by
(baseName, subCategory, padding, extension, relativePath), a gap analyzer
over the sorted frame list, a byte-size formatter `format_size`, and a
renderer `display_results` with a table mode and a player-command mode.

Every definition below is translated from the source; definitions whose
names carry a `spec` prefix are instead written from the wording of the
specification and are compared against the source-derived definitions in
refinement theorems.

Strings are modelled by Lean `String`, ordered and inspected through their
underlying `List Char`, which coincides with Python's code-point-wise
string comparison for the data handled here.  Python integers are `Nat`
(all quantities involved - frame numbers, paddings, sizes - are
non-negative).  A Python value of `None` is `Option.none`, an exception is
modelled by an explicit error flag where the claims require it.
-/

/-- Word-character test: the regex class `\w` over ASCII filenames,
letters, digits and the underscore. -/
def isWordChar (c : Char) : Bool := c.isAlphanum || c == '_'

/-- Source regex, innermost fragment `\.(\d+)\.(\w+)$`, applied to a
character-list suffix.  The greedy `\d+` can only succeed on the maximal
digit run (a shorter run would leave a digit where `\.` is required), and
the final `\w+$` forces the remaining characters to be a non-empty run of
word characters, so the fragment is deterministic.  Returns the digit text
and the extension text. -/
def matchNumExt : List Char → Option (List Char × List Char)
  | '.' :: r =>
    let d := r.takeWhile Char.isDigit
    let t := r.dropWhile Char.isDigit
    if d.isEmpty then none
    else
      match t with
      | '.' :: e => if !e.isEmpty && e.all isWordChar then some (d, e) else none
      | _ => none
  | _ => none

/-- Source regex, fragment `(\.\w+)?\.(\d+)\.(\w+)$` at a fixed start
position.  The optional group is tried first (regex `?` is greedy) with the
maximal `\w+` run (a shorter run would leave a word character where `\.` is
required, so no other length can succeed); on failure the fragment is
retried without the optional group.  Returns (subCategory text including
its dot, digit text, extension text). -/
def matchTail (s : List Char) : Option (List Char × List Char × List Char) :=
  match s with
  | '.' :: r =>
    let w := r.takeWhile isWordChar
    let t := r.dropWhile isWordChar
    match (if w.isEmpty then none else matchNumExt t) with
    | some (d, e) => some ('.' :: w, d, e)
    | none =>
      match matchNumExt ('.' :: r) with
      | some (d, e) => some ([], d, e)
      | none => none
  | _ =>
    match matchNumExt s with
    | some (d, e) => some ([], d, e)
    | none => none

/-- Source regex `^(.*?)(\.\w+)?\.(\d+)\.(\w+)$`: the non-greedy `(.*?)`
tries base prefixes from the shortest up, and for each base length the rest
of the pattern is matched by `matchTail`.  Returns
(base, subCategory, digits, extension) as character lists. -/
def matchFrameAux (pre : List Char) (s : List Char) :
    Option (List Char × List Char × List Char × List Char) :=
  match matchTail s with
  | some (w, d, e) => some (pre, w, d, e)
  | none =>
    match s with
    | [] => none
    | c :: rest => matchFrameAux (pre ++ [c]) rest

/-- Captured groups of the filename pattern match in `detect_sequences`:
`base_name`, `sub_category` (dot included, `""` when absent), the literal
frame-number text, and the extension. -/
structure FileMatch where
  base : String
  sub : String
  digits : String
  ext : String
deriving DecidableEq

/-- The filename pattern matcher: `regex.match(filename)` for
`regex = re.compile(r"^(.*?)(\.\w+)?\.(\d+)\.(\w+)$")`. -/
def matchFilename (name : String) : Option FileMatch :=
  match matchFrameAux [] name.data with
  | some (b, w, d, e) => some ⟨String.mk b, String.mk w, String.mk d, String.mk e⟩
  | none => none

/-- Numeric value of the digit text: `int(match.group(3))`. -/
def digitsVal (d : List Char) : Nat :=
  d.foldl (fun acc c => acc * 10 + (c.toNat - '0'.toNat)) 0

/-- Sequence identity: the dictionary key
`(base_name, sub_category, padding, extension, relative_path)` built in
`explore_directory`; `padding = len(match.group(3))` is the literal digit
count. -/
structure SeqKey where
  baseName : String
  subCategory : String
  padding : Nat
  extension : String
  relativePath : String
deriving DecidableEq

/-- Key extraction for one file: the pattern match plus the enclosing
directory's relative path. -/
def keyOfFile (relPath name : String) : Option SeqKey :=
  match matchFilename name with
  | some m => some ⟨m.base, m.sub, m.digits.length, m.ext, relPath⟩
  | none => none

/-- Key and frame number of a matching file; `none` for filenames the
regex rejects (such files are silently skipped by the source). -/
def frameOfFile (relPath name : String) : Option (SeqKey × Nat) :=
  match matchFilename name with
  | some m =>
    some (⟨m.base, m.sub, m.digits.length, m.ext, relPath⟩, digitsVal m.digits.data)
  | none => none

/-- One step of `sequences[key].append(...)` on the association-list view
of the Python `defaultdict(list)`: append to the bucket of an existing key,
otherwise create a new bucket at the end (first-appearance key order). -/
def addToGroups (gs : List (SeqKey × List Nat)) (k : SeqKey) (n : Nat) :
    List (SeqKey × List Nat) :=
  match gs with
  | [] => [(k, [n])]
  | (k', ns) :: rest =>
    if k' = k then (k', ns ++ [n]) :: rest else (k', ns) :: addToGroups rest k n

/-- One file of the aggregation loop of `explore_directory`: a file whose
name matches the pattern is appended to the bucket of its key, any other
file is skipped. -/
def groupStep (gs : List (SeqKey × List Nat)) (f : String × String) :
    List (SeqKey × List Nat) :=
  match frameOfFile f.1 f.2 with
  | some (k, n) => addToGroups gs k n
  | none => gs

/-- The aggregation loop of `explore_directory` over a stream of
(relativePath, filename) pairs. -/
def groupFiles (files : List (String × String)) : List (SeqKey × List Nat) :=
  files.foldl groupStep []

/-- The frame number a file contributes to the bucket of key `k`: its own
frame number when the file matches the pattern and its key is exactly `k`,
nothing otherwise. -/
def keyFrames (k : SeqKey) (f : String × String) : Option Nat :=
  match frameOfFile f.1 f.2 with
  | some (k', n) => if k' = k then some n else none
  | none => none

/-- Frame-number bucket of a key in the grouped map (empty when the key is
absent). -/
def groupFrames (k : SeqKey) : List (SeqKey × List Nat) → List Nat
  | [] => []
  | (k', ns) :: rest => if k' = k then ns else groupFrames k rest

/-- Rendering of one missing run in `detect_sequences`: a single number
when the run has length one, otherwise `start-end`. -/
def renderRun (a b : Nat) : String :=
  if b = a then toString a else toString a ++ "-" ++ toString b

/-- One iteration of the gap-detection loop
`for i in range(frames[0][0], frames[-1][0])` of `detect_sequences`.
The state is (`missing_start`, `missing_ranges`); presence is the test
`i not in [f[0] for f in frames]`. -/
def scanStep (fs : List Nat) (st : Option Nat × List String) (i : Nat) :
    Option Nat × List String :=
  if i ∈ fs then
    match st.1 with
    | some s => (none, st.2 ++ [renderRun s (i - 1)])
    | none => st
  else
    match st.1 with
    | none => (some i, st.2)
    | some _ => st

/-- The post-loop flush of `detect_sequences`: a run still open when the
scan reaches `max` is emitted with end `max - 1`. -/
def finishScan (mx : Nat) : Option Nat × List String → List String
  | (none, acc) => acc
  | (some s, acc) => acc ++ [renderRun s (mx - 1)]

/-- The `missing_ranges` computation of `detect_sequences`, applied to the
(sorted) frame-number list: scan every integer from `min` to `max - 1`,
then flush.  Empty input cannot occur in the source (a bucket always holds
at least one frame) and yields `[]` here. -/
def missingRangesOf (fs : List Nat) : List String :=
  match fs.head?, fs.getLast? with
  | some mn, some mx =>
    finishScan mx ((List.range' mn (mx - mn)).foldl (scanStep fs) (none, []))
  | _, _ => []

/-- The `frame_range` text of `detect_sequences`:
`f"[{frames[0][0]}-{frames[-1][0]}]"`. -/
def frameRangeOf (fs : List Nat) : String :=
  match fs.head?, fs.getLast? with
  | some mn, some mx => "[" ++ toString mn ++ "-" ++ toString mx ++ "]"
  | _, _ => ""

/-- Modelled from the spec: grouping of an ascending list of absent frame
numbers into maximal runs of consecutive integers, carrying the current
run `[a, b]`. -/
def specRunsAux : List Nat → Nat → Nat → List (Nat × Nat)
  | [], a, b => [(a, b)]
  | x :: xs, a, b =>
    if x = b + 1 then specRunsAux xs a x else (a, b) :: specRunsAux xs x x

/-- Modelled from the spec: the maximal runs of consecutive integers in an
ascending list. -/
def specRuns : List Nat → List (Nat × Nat)
  | [] => []
  | x :: xs => specRunsAux xs x x

/-- Modelled from the spec: the integers strictly between `min` and `max`
that are absent from the observed frame set. -/
def absentBetween (fs : List Nat) (mn mx : Nat) : List Nat :=
  (List.range' (mn + 1) (mx - mn - 1)).filter (fun i => decide (i ∉ fs))

/-- Modelled from the spec: `missingRanges` as the maximal ordered disjoint
runs of integers absent from the observed frame set strictly between `min`
and `max`, each run rendered as `start` (length one) or `start-end`. -/
def specMissingRanges (fs : List Nat) : List String :=
  match fs.head?, fs.getLast? with
  | some mn, some mx =>
    (specRuns (absentBetween fs mn mx)).map (fun p => renderRun p.1 p.2)
  | _, _ => []

/-- A directory tree: name, plain files, subdirectories.  This is the
file-system fragment visible to `explore_directory`. -/
inductive DirTree where
  | node : String → List String → List DirTree → DirTree

/-- Directory name of a tree node. -/
def DirTree.dirName : DirTree → String
  | .node n _ _ => n

/-- Plain files directly inside a tree node. -/
def DirTree.files : DirTree → List String
  | .node _ fs _ => fs

/-- Subdirectories of a tree node. -/
def DirTree.subdirs : DirTree → List DirTree
  | .node _ _ ds => ds

mutual

/-- The `os.walk(cur)` traversal: top-down, the directory itself first,
then every descendant depth-first.  Each yielded entry carries the
directory's path relative to the scan base (as a component list: `[]` is
the base itself, playing the role of relpath `"."`) together with the
subtree, from which the walk entry's `dirs` and `files` are read. -/
def walkT (rel : List String) : DirTree → List (List String × DirTree)
  | .node n fs ds => (rel, .node n fs ds) :: walkSubs rel ds

/-- Walks of the subdirectories, in directory-list order. -/
def walkSubs (rel : List String) : List DirTree → List (List String × DirTree)
  | [] => []
  | .node n fs ds :: rest =>
    walkT (rel ++ [n]) (.node n fs ds) ++ walkSubs rel rest

end

/-- The `relative_depth` computed by `explore_directory`:
`os.path.relpath(root, base_path).count(os.sep) + 1`.  The base itself has
relpath `"."` hence depth 1; a path of `k ≥ 1` components has `k - 1`
separators hence depth `k`. -/
def relDepth (rel : List String) : Nat := max 1 rel.length

/-- The recursive branch of `explore_directory`.  The first argument `r+1`
stands for `depth + 1 - current_depth`, so `0` is the entry guard
`current_depth > depth`, and `0 < r` is the recursion guard
`current_depth < depth`.  For each `os.walk` entry below the current
directory: skip it when its `relative_depth` exceeds `depth` (`continue`),
otherwise record its files and, when the recursion guard holds, explore
each of its subdirectories one level deeper - in addition to the walk
already visiting them. -/
def exploreRec (depth : Nat) : Nat → List String → DirTree → List (List String × String)
  | 0, _, _ => []
  | r + 1, rel, t =>
    (walkT rel t).flatMap fun e =>
      if depth < relDepth e.1 then []
      else
        e.2.files.map (fun f => (e.1, f)) ++
          (if 0 < r then
            e.2.subdirs.flatMap (fun d => exploreRec depth r (e.1 ++ [d.dirName]) d)
          else [])

/-- The non-recursive branch of `explore_directory` over the entries of
`os.walk(base)`: entries other than the base are skipped (`continue`), an
entry of excessive depth is skipped, and after processing one entry the
loop `break`s. -/
def exploreNonRec (depth : Nat) : List (List String × DirTree) → List (List String × String)
  | [] => []
  | e :: rest =>
    if e.1 ≠ [] then exploreNonRec depth rest
    else if depth < relDepth e.1 then exploreNonRec depth rest
    else e.2.files.map (fun f => (e.1, f))

/-- The file stream produced by `explore_directory(directory, 1, directory)`:
pairs of (directory path relative to the base, filename).  In the
recursive mode the initial remaining budget is `depth + 1 - 1 = depth`;
in the non-recursive mode the entry guard `1 > depth` rejects `depth = 0`
and the walk loop runs on `os.walk(base)`. -/
def scanFiles (recursive : Bool) (depth : Nat) (t : DirTree) : List (List String × String) :=
  if recursive then exploreRec depth depth [] t
  else if depth = 0 then [] else exploreNonRec depth (walkT [] t)

/-- Example tree: `a.0001.exr`, `A/b.0001.exr`, `A/B/c.0001.exr`. -/
def walkExTree : DirTree :=
  .node "root" ["a.0001.exr"]
    [.node "A" ["b.0001.exr"] [.node "B" ["c.0001.exr"] []]]

example : scanFiles true 1 walkExTree =
    [([], "a.0001.exr"), (["A"], "b.0001.exr")] := by decide
example : scanFiles true 2 walkExTree =
    [([], "a.0001.exr"), (["A"], "b.0001.exr"), (["A", "B"], "c.0001.exr"),
      (["A"], "b.0001.exr"), (["A", "B"], "c.0001.exr"), (["A", "B"], "c.0001.exr")] := by
  decide
example : scanFiles false 1 walkExTree = [([], "a.0001.exr")] := by decide
example : scanFiles false 5 walkExTree = [([], "a.0001.exr")] := by decide

/-- One frame record as stored in a bucket by `explore_directory`:
`(frame_number, resolution, file_size)`; resolution and size are `None`
when the corresponding display option is off. -/
structure FrameRec where
  num : Nat
  res : Option String
  size : Option Nat
deriving DecidableEq

/-- The `total_size` of `detect_sequences`:
`sum(f[2] for f in frames if f[2] is not None)`. -/
def totalSizeOf (fs : List FrameRec) : Nat := (fs.filterMap FrameRec.size).sum

/-- The `average_size` of `detect_sequences`:
`total_size // len(frames) if total_size and frames else None`.  Note the
Python truthiness test: a zero `total_size` yields `None`, not `0`. -/
def averageSizeOf (fs : List FrameRec) : Option Nat :=
  if totalSizeOf fs ≠ 0 ∧ fs ≠ [] then some (totalSizeOf fs / fs.length) else none

/-- One-decimal rendering of the exact value `n / 2 ^ (10 * k)`, rounding
half to even: the behaviour of Python's `f"{size:.1f}"` on the value
reached after `k` divisions by 1024.  For every size below `2 ^ 53` each
division by 1024 is exact in binary floating point (only the exponent
changes), so the float Python formats is exactly this rational and
CPython's correctly-rounding formatter agrees with this function. -/
def fmt1 (n k : Nat) : String :=
  let d := 2 ^ (10 * k)
  let x := 10 * n
  let q := x / d
  let r := x % d
  let q2 :=
    if d < 2 * r then q + 1
    else if 2 * r < d then q
    else if q % 2 = 0 then q else q + 1
  toString (q2 / 10) ++ "." ++ toString (q2 % 10)

/-- The unit loop of `format_size`: at step `k` the running value is
`n / 2 ^ (10 * k)`, and the test `size < 1024` is `n < 2 ^ (10 * (k+1))`.
When the unit list is exhausted the Python function falls off the loop and
implicitly returns `None`. -/
def formatSizeGo (n : Nat) : Nat → List String → Option String
  | _, [] => none
  | k, u :: us =>
    if n < 2 ^ (10 * (k + 1)) then some (fmt1 n k ++ " " ++ u)
    else formatSizeGo n (k + 1) us

/-- The `format_size` function of the source. -/
def format_size (n : Nat) : Option String :=
  formatSizeGo n 0 ["B", "KB", "MB", "GB", "TB"]

/-- Modelled from the spec: the first unit index (0 = bytes .. 4 = TB)
under which the repeatedly divided value is below 1024. -/
def specUnitIdx (n : Nat) : Nat :=
  if n < 2 ^ 10 then 0
  else if n < 2 ^ 20 then 1
  else if n < 2 ^ 30 then 2
  else if n < 2 ^ 40 then 3
  else 4

/-- Unit names in loop order. -/
def unitNameOf : Nat → String
  | 0 => "B"
  | 1 => "KB"
  | 2 => "MB"
  | 3 => "GB"
  | _ => "TB"

/-- Modelled from the spec, amended by the counterexample: the size
formatted under the first fitting unit with one decimal place, provided
some unit among bytes..TB fits, i.e. the size is below `1024 TB = 2^50`
bytes; beyond that no string is produced. -/
def specFormatSize (n : Nat) : Option String :=
  if n < 2 ^ 50 then some (fmt1 n (specUnitIdx n) ++ " " ++ unitNameOf (specUnitIdx n))
  else none

example : format_size 0 = some "0.0 B" := by decide
example : format_size 1536 = some "1.5 KB" := by decide
example : format_size 1280 = some "1.2 KB" := by decide
example : format_size 3840 = some "3.8 KB" := by decide
example : format_size (2 ^ 50 - 1) = some "1024.0 TB" := by decide
example : format_size (2 ^ 50) = none := by decide

/-- One row of the `results` list of `detect_sequences`, in tuple order:
`(relative_path, name, sub_category, frame_range, padding, extension,
frame_count, resolution_str, missing_str, total_size, average_size)`.
`padding` is stored as text (`str(padding)`), as in the source tuple. -/
structure SequenceSummary where
  relativePath : String
  baseName : String
  subCategory : String
  frameRange : String
  padding : String
  extension : String
  count : Nat
  resolution : Option String
  missing : String
  totalSize : Nat
  averageSize : Option Nat
deriving DecidableEq

/-- The sort key of `display_results`:
`lambda x: (x[0], x[1], x[3], x[2] != "", x[2])`, i.e.
(relativePath, baseName, frameRangeText, subCategory-is-non-empty,
subCategory), compared lexicographically with Python's code-point string
order (strings compared through their character lists) and `False < True`
on the boolean component, so an empty sub-category sorts first. -/
def sortKeyOf (s : SequenceSummary) :
    Lex (List Char × Lex (List Char × Lex (List Char × Lex (Bool × List Char)))) :=
  toLex (s.relativePath.data,
    toLex (s.baseName.data,
      toLex (s.frameRange.data,
        toLex (s.subCategory != "", s.subCategory.data))))

/-- Comparison of two summaries by the canonical sort key. -/
def keyLE (a b : SequenceSummary) : Prop := sortKeyOf a ≤ sortKeyOf b

instance : DecidableRel keyLE := fun a b =>
  inferInstanceAs (Decidable (sortKeyOf a ≤ sortKeyOf b))

instance : IsTotal SequenceSummary keyLE :=
  ⟨fun a b => le_total (sortKeyOf a) (sortKeyOf b)⟩

instance : IsTrans SequenceSummary keyLE :=
  ⟨fun _ _ _ h1 h2 => le_trans h1 h2⟩

/-- The `results.sort(key=...)` call of `display_results`.  Python's
`list.sort` is a stable comparison sort; a stable sort under a total
transitive comparison has a unique output, here realised by the stable
`List.insertionSort`. -/
def sortResults (rs : List SequenceSummary) : List SequenceSummary :=
  List.insertionSort keyLE rs

/-- The wildcard name of the player-command mode:
`f"{name}{sub_category}.*.{extension}"`. -/
def rvFullName (s : SequenceSummary) : String :=
  s.baseName ++ s.subCategory ++ ".*." ++ s.extension

/-- The behaviour of `os.path.join(a, b)` for the one-separator POSIX
cases arising here: an absolute second component wins, an empty or
slash-terminated first component is prepended as is, otherwise a slash is
inserted. -/
def pathJoin (a b : String) : String :=
  if b.data.head? = some '/' then b
  else if a = "" then b
  else if a.data.getLast? = some '/' then a ++ b
  else a ++ "/" ++ b

/-- One printed line of the player-command branch:
`rv {os.path.join(relative_path, full_name)}`, or `rv {full_name}` when
the sequence sits at the scan root (relative path `"."`). -/
def rvCmdLine (s : SequenceSummary) : String :=
  if s.relativePath ≠ "." then "rv " ++ pathJoin s.relativePath (rvFullName s)
  else "rv " ++ rvFullName s

/-- The player-command loop of `display_results`: a blank line is printed
between entries whose relative path differs from the previous one
(`last_relative_path` starts as `None`, which suppresses a leading blank
line). -/
def rvLinesGo : Option String → List SequenceSummary → List String
  | _, [] => []
  | last, s :: rest =>
    (if last = none ∨ last = some s.relativePath then [] else [""]) ++
      rvCmdLine s :: rvLinesGo (some s.relativePath) rest

/-- Modelled from the spec: one player line of the form
`rv <relativePath/ or nothing if root>{base}{subCategory}.*.{extension}`. -/
def specRvLine (s : SequenceSummary) : String :=
  "rv " ++ (if s.relativePath = "." then "" else s.relativePath ++ "/") ++
    s.baseName ++ s.subCategory ++ ".*." ++ s.extension

/-- Modelled from the spec: remaining player lines after a first entry,
with one blank line inserted whenever the relative path changes between
consecutive sequences. -/
def specRvLinesGo : String → List SequenceSummary → List String
  | _, [] => []
  | prev, s :: rest =>
    (if s.relativePath ≠ prev then ["", specRvLine s] else [specRvLine s]) ++
      specRvLinesGo s.relativePath rest

/-- Modelled from the spec: exactly one line per sequence, with blank
separators between relative-path groups. -/
def specRvLines : List SequenceSummary → List String
  | [] => []
  | s :: rest => specRvLine s :: specRvLinesGo s.relativePath rest

/-- Python `str.ljust`-style padding as used by the `f"{v:<w}"` format
specifiers of the renderer: pad on the right with spaces up to the width,
never truncate. -/
def ljust (s : String) (w : Nat) : String :=
  s ++ String.mk (List.replicate (w - s.length) ' ')

/-- A run of one repeated character, for the `"=" * len(header)` and
`"-" * len(header)` separator rules. -/
def repChar (c : Char) (n : Nat) : String := String.mk (List.replicate n c)

/-- The table header of `display_results`, assembled in source order with
the optional count / resolution / size columns. -/
def tableHeader (incRes incSize incCount : Bool) (mpl : Nat) : String :=
  ljust "path" mpl ++ " " ++ ljust "name" 20 ++ " " ++ ljust "range" 15 ++ " " ++
    ljust "pad" 4 ++ " " ++ ljust "ext" 4 ++
    (if incCount then " " ++ ljust "count" 6 else "") ++
    (if incRes then " " ++ ljust "resolution" 12 else "") ++
    (if incSize then "    " ++ ljust "size" 10 ++ " " ++ ljust "avg size" 10 else "") ++
    " " ++ ljust "missing" 20

/-- The `size_str` of a table row:
`format_size(total_size) if total_size else ""`; `none` marks the
`TypeError` raised when `format_size` itself returned `None`. -/
def sizeStrOf (s : SequenceSummary) : Option String :=
  if s.totalSize ≠ 0 then format_size s.totalSize else some ""

/-- The `avg_size_str` of a table row:
`format_size(average_size) if average_size else ""` (both `None` and `0`
are falsy). -/
def avgStrOf (s : SequenceSummary) : Option String :=
  match s.averageSize with
  | none => some ""
  | some a => if a ≠ 0 then format_size a else some ""

/-- One table row of `display_results`, assembled in source order; `none`
models the uncaught `TypeError` of formatting a `None` value (a `None`
resolution under the resolution column, or an out-of-range size). -/
def rowLine (incRes incSize incCount : Bool) (mpl : Nat) (pathDisplay : String)
    (s : SequenceSummary) : Option String :=
  let l0 := ljust pathDisplay mpl ++ " " ++ ljust (s.baseName ++ s.subCategory) 20 ++ " " ++
    ljust s.frameRange 15 ++ " " ++ ljust s.padding 4 ++ " " ++ ljust s.extension 4
  let l1 := l0 ++ (if incCount then " " ++ ljust (toString s.count) 6 else "")
  match (if incRes then s.resolution.map (fun r => " " ++ ljust r 12) else some "") with
  | none => none
  | some resPart =>
    match
      (if incSize then
        match sizeStrOf s, avgStrOf s with
        | some a, some b => some ("    " ++ ljust a 10 ++ " " ++ ljust b 10)
        | _, _ => none
      else some "") with
    | none => none
    | some sizePart => some (l1 ++ resPart ++ sizePart ++ " " ++ ljust s.missing 20)

/-- The table-row loop of `display_results`: a full-width dash rule when
the relative-path group changes, run-length suppression of repeated
relative paths, and the printed lines so far paired with a success flag
(`false` when a row raises, which aborts the loop after any separator of
that row was already printed). -/
def tableRows (incRes incSize incCount : Bool) (mpl hlen : Nat) :
    Option String → List SequenceSummary → List String × Bool
  | _, [] => ([], true)
  | last, s :: rest =>
    let rule :=
      if last ≠ none ∧ last ≠ some s.relativePath then [repChar '-' hlen] else []
    let pd := if last ≠ some s.relativePath then s.relativePath else ""
    match rowLine incRes incSize incCount mpl pd s with
    | none => (rule, false)
    | some line =>
      let pr := tableRows incRes incSize incCount mpl hlen (some s.relativePath) rest
      (rule ++ line :: pr.1, pr.2)

/-- The body of `display_results` after the in-place sort: either the
player-command lines or the column table, over the already sorted list.
The output is the list of printed lines together with a success flag; in
table mode an empty result list makes
`max(len(res[0]) for res in results)` raise `ValueError` before anything
is printed, modelled as `([], false)`. -/
def displayBody (incRes incSize incCount rvMode : Bool) (sorted : List SequenceSummary) :
    List String × Bool :=
  if rvMode then (rvLinesGo none sorted, true)
  else
    match sorted with
    | [] => ([], false)
    | _ =>
      let mpl := min (((sorted.map (fun s => s.relativePath.length)).foldl max 0) + 2) 30
      let header := tableHeader incRes incSize incCount mpl
      let rows := tableRows incRes incSize incCount mpl header.length none sorted
      (header :: repChar '=' header.length :: rows.1, rows.2)

/-- The `display_results` function of the source: the canonical in-place
sort followed by the rendering body. -/
def display_results (incRes incSize incCount rvMode : Bool) (rs : List SequenceSummary) :
    List String × Bool :=
  displayBody incRes incSize incCount rvMode (sortResults rs)

set_option maxRecDepth 10000

def exS1 : SequenceSummary :=
  ⟨".", "e", "", "[1-3]", "4", "exr", 3, some "1920x1080", "", 3072, some 1024⟩
def exS2 : SequenceSummary :=
  ⟨"shots/sq1", "a", ".depth", "[1-4]", "4", "exr", 3, some "2048x858", "[3]", 0, none⟩
def exS3 : SequenceSummary :=
  ⟨"shots/sq1", "a", "", "[1-4]", "4", "exr", 3, some "2048x858", "[3]", 5000000, some 1666666⟩

example : display_results true true true false [exS1, exS2, exS3] =
    (["path        name                 range           pad  ext  count  resolution      size       avg size   missing             ",
      repChar '=' 124,
      ".           e                    [1-3]           4    exr  3      1920x1080       3.0 KB     1.0 KB                         ",
      repChar '-' 124,
      "shots/sq1   a                    [1-4]           4    exr  3      2048x858        4.8 MB     1.6 MB     [3]                 ",
      "            a.depth              [1-4]           4    exr  3      2048x858                              [3]                 "],
     true) := by decide

example : display_results false false false true [exS1, exS2, exS3] =
    (["rv e.*.exr", "", "rv shots/sq1/a.*.exr", "rv shots/sq1/a.depth.*.exr"], true) := by
  decide

example : missingRangesOf [1, 2, 5, 6, 10] = ["3-4", "7-9"] := by decide
example : specMissingRanges [1, 2, 5, 6, 10] = ["3-4", "7-9"] := by decide
example : frameRangeOf [1, 2, 5, 6, 10] = "[1-10]" := by decide
example : missingRangesOf [7] = [] := by decide

/-- Helper: a pending run `[a, b]` is closed in front of an ascending list
whose members all lie beyond `b + 1`. -/
lemma specRunsAux_far (l : List Nat) (a b : Nat) (h : ∀ x ∈ l, b + 1 < x) :
    specRunsAux l a b = (a, b) :: specRuns l := by
  cases l with
  | nil => rfl
  | cons x xs =>
    have hne : ¬ x = b + 1 := by
      have := h x (List.mem_cons_self x xs)
      omega
    simp [specRunsAux, hne, specRuns]

/-- Helper: the gap-scan loop of `detect_sequences`, folded over the
integer range starting at `a`, produces exactly the rendered maximal runs
of the absent integers of that range - stated simultaneously for a scan
arriving with no open run and for a scan arriving inside an open run that
started strictly below `a`. -/
lemma scanFold_spec (p : List Nat) :
    ∀ n a acc,
      (finishScan (a + n) ((List.range' a n).foldl (scanStep p) (none, acc)) =
        acc ++ (specRuns ((List.range' a n).filter (fun i => decide (i ∉ p)))).map
          (fun q => renderRun q.1 q.2)) ∧
      (∀ s, s + 1 ≤ a →
        finishScan (a + n) ((List.range' a n).foldl (scanStep p) (some s, acc)) =
          acc ++ (specRunsAux ((List.range' a n).filter (fun i => decide (i ∉ p))) s (a - 1)).map
            (fun q => renderRun q.1 q.2)) := by
  intro n
  induction n with
  | zero =>
    intro a acc
    constructor
    · simp [List.range', finishScan, specRuns]
    · intro s _
      simp [List.range', finishScan, specRunsAux]
  | succ n ih =>
    intro a acc
    have hsplit : List.range' a (n + 1) = a :: List.range' (a + 1) n := List.range'_succ a n 1
    have harith : a + (n + 1) = (a + 1) + n := by omega
    have hmem : ∀ x ∈ (List.range' (a + 1) n).filter (fun i => decide (i ∉ p)), a + 1 ≤ x := by
      intro x hx
      have hx' := List.mem_range'_1.mp (List.mem_of_mem_filter hx)
      omega
    constructor
    · by_cases hp : a ∈ p
      · have hstep : scanStep p (none, acc) a = (none, acc) := by
          simp [scanStep, hp]
        rw [hsplit, List.foldl_cons, hstep, harith, List.filter_cons_of_neg (by simp [hp])]
        exact (ih (a + 1) acc).1
      · have hstep : scanStep p (none, acc) a = (some a, acc) := by
          simp [scanStep, hp]
        rw [hsplit, List.foldl_cons, hstep, harith, List.filter_cons_of_pos (by simp [hp])]
        have h2 := (ih (a + 1) acc).2 a (by omega)
        simpa [specRuns] using h2
    · intro s hs
      by_cases hp : a ∈ p
      · have hstep : scanStep p (some s, acc) a = (none, acc ++ [renderRun s (a - 1)]) := by
          simp [scanStep, hp]
        rw [hsplit, List.foldl_cons, hstep, harith, List.filter_cons_of_neg (by simp [hp])]
        have h1 := (ih (a + 1) (acc ++ [renderRun s (a - 1)])).1
        rw [h1, specRunsAux_far _ s (a - 1) (by intro x hx; have := hmem x hx; omega)]
        simp
      · have hstep : scanStep p (some s, acc) a = (some s, acc) := by
          simp [scanStep, hp]
        rw [hsplit, List.foldl_cons, hstep, harith, List.filter_cons_of_pos (by simp [hp])]
        have h2 := (ih (a + 1) acc).2 s (by omega)
        simp only [Nat.add_sub_cancel] at h2
        have hcond : a = (a - 1) + 1 := by omega
        have hrw : specRunsAux (a :: (List.range' (a + 1) n).filter (fun i => decide (i ∉ p)))
            s (a - 1) =
            specRunsAux ((List.range' (a + 1) n).filter (fun i => decide (i ∉ p))) s a := by
          simp [specRunsAux, ← hcond]
        rw [hrw, h2]

/-- Helper: the head of a sorted non-empty list is at most its last
element. -/
lemma head_le_getLast_of_sorted (fs : List Nat) (h : fs ≠ [])
    (hs : List.Sorted (· ≤ ·) fs) : fs.head h ≤ fs.getLast h := by
  cases fs with
  | nil => exact absurd rfl h
  | cons a l =>
    have hmem := List.getLast_mem (l := a :: l) h
    rcases List.mem_cons.mp hmem with heq | hmem'
    · simp [heq]
    · exact (List.sorted_cons.mp hs).1 _ hmem'

/-- Helper: on any sorted non-empty frame list, the `missing_ranges` loop
of `detect_sequences` computes exactly the rendered maximal runs of the
integers absent from the frame set strictly between the minimum and the
maximum. -/
lemma missingRanges_eq_spec (fs : List Nat) (hne : fs ≠ [])
    (hs : List.Sorted (· ≤ ·) fs) : missingRangesOf fs = specMissingRanges fs := by
  have hhead : fs.head? = some (fs.head hne) := List.head?_eq_head hne
  have hlast : fs.getLast? = some (fs.getLast hne) := List.getLast?_eq_getLast fs hne
  set mn := fs.head hne with hmn
  set mx := fs.getLast hne with hmx
  have hmnmem : mn ∈ fs := List.head_mem hne
  have hle : mn ≤ mx := head_le_getLast_of_sorted fs hne hs
  simp only [missingRangesOf, specMissingRanges, hhead, hlast]
  rcases Nat.eq_or_lt_of_le hle with heq | hlt
  · have h0 : mx - mn = 0 := by omega
    have h1 : mx - mn - 1 = 0 := by omega
    simp [h0, h1, absentBetween, List.range', finishScan, specRuns]
  · obtain ⟨k, hk⟩ : ∃ k, mx - mn = k + 1 := ⟨mx - mn - 1, by omega⟩
    have hk2 : mx - mn - 1 = k := by omega
    rw [hk, List.range'_succ, List.foldl_cons]
    have hstep : scanStep fs (none, []) mn = (none, []) := by
      simp [scanStep, hmnmem]
    rw [hstep]
    have h1 := (scanFold_spec fs k (mn + 1) []).1
    rw [show (mn + 1) + k = mx from by omega] at h1
    rw [h1, absentBetween, hk2]
    simp
example : (matchFilename "c.depth.0001.exr") =
    some ⟨"c", ".depth", "0001", "exr"⟩ := by decide
example : (matchFilename "b.1.exr") = some ⟨"b", "", "1", "exr"⟩ := by decide
example : (matchFilename "a.b.c.0001.exr") = some ⟨"a.b", ".c", "0001", "exr"⟩ := by decide
example : (matchFilename "noframes.exr") = none := by decide
example : (matchFilename "x..0001.exr") = some ⟨"x.", "", "0001", "exr"⟩ := by decide

/-- Helper: effect of one `defaultdict` append on the bucket of a key. -/
lemma groupFrames_addToGroups (gs : List (SeqKey × List Nat)) (k k' : SeqKey) (n : Nat) :
    groupFrames k (addToGroups gs k' n) =
      if k' = k then groupFrames k gs ++ [n] else groupFrames k gs := by
  induction gs with
  | nil =>
    by_cases h : k' = k <;> simp [addToGroups, groupFrames, h]
  | cons hd rest ih =>
    obtain ⟨k0, ns⟩ := hd
    by_cases h1 : k0 = k'
    · subst h1
      by_cases h2 : k0 = k
      · subst h2
        simp [addToGroups, groupFrames]
      · simp [addToGroups, groupFrames, h2]
    · by_cases h2 : k0 = k
      · subst h2
        have h3 : ¬ k' = k0 := fun he => h1 he.symm
        simp [addToGroups, groupFrames, h1, h3]
      · simp [addToGroups, groupFrames, h1, h2, ih]

/-- Helper: after folding the aggregation step over a file list, the
bucket of a key holds its previous content followed by exactly the frame
numbers of the files whose key equals it, in file order. -/
lemma groupFrames_foldl (files : List (String × String)) :
    ∀ (gs : List (SeqKey × List Nat)) (k : SeqKey),
      groupFrames k (files.foldl groupStep gs) =
        groupFrames k gs ++ files.filterMap (keyFrames k) := by
  induction files with
  | nil => intro gs k; simp
  | cons f rest ih =>
    intro gs k
    rw [List.foldl_cons, List.filterMap_cons]
    cases hf : frameOfFile f.1 f.2 with
    | none =>
      rw [show groupStep gs f = gs from by simp [groupStep, hf],
        show keyFrames k f = none from by simp [keyFrames, hf]]
      exact ih gs k
    | some p =>
      obtain ⟨k', n⟩ := p
      rw [show groupStep gs f = addToGroups gs k' n from by simp [groupStep, hf],
        show keyFrames k f = if k' = k then some n else none from by simp [keyFrames, hf],
        ih (addToGroups gs k' n) k, groupFrames_addToGroups]
      by_cases h : k' = k
      · simp [h]
      · simp [h]

/-- Helper: the non-recursive scan returns exactly the root directory's
own files (with relative path `[]`, i.e. `"."`), whatever depth was
requested. -/
lemma scanFiles_nonrec (depth : Nat) (t : DirTree) :
    scanFiles false depth t =
      if depth = 0 then [] else t.files.map (fun f => (([] : List String), f)) := by
  by_cases h0 : depth = 0
  · simp [scanFiles, h0]
  · cases t with
    | node nm fs ds =>
      have h1 : ¬ depth < relDepth ([] : List String) := by
        simp [relDepth]; omega
      simp [scanFiles, h0, walkT, exploreNonRec, h1, DirTree.files]

/-- Helper: under the path shapes produced by a scan (non-empty relative
path without trailing separator, file names not starting with a
separator), the player line of the source coincides with the line form of
the spec. -/
lemma rvCmdLine_eq_spec (s : SequenceSummary) (h1 : s.relativePath ≠ "")
    (h2 : s.relativePath.data.getLast? ≠ some '/')
    (h3 : (rvFullName s).data.head? ≠ some '/') :
    rvCmdLine s = specRvLine s := by
  by_cases hq : s.relativePath = "."
  · simp [rvCmdLine, specRvLine, rvFullName, hq, String.append_assoc]
  · have h3' : ¬ (s.baseName ++ s.subCategory ++ ".*." ++ s.extension).data.head? = some '/' := by
      simpa [rvFullName] using h3
    unfold rvCmdLine specRvLine pathJoin rvFullName
    rw [if_pos hq, if_neg h3', if_neg h1, if_neg h2, if_neg hq]
    simp [String.append_assoc]

/-- Helper: the player loop with a known previous relative path equals the
spec's line list. -/
lemma rvLinesGo_eq_spec (l : List SequenceSummary)
    (h : ∀ s ∈ l, s.relativePath ≠ "" ∧ s.relativePath.data.getLast? ≠ some '/' ∧
      (rvFullName s).data.head? ≠ some '/') :
    ∀ p : String, rvLinesGo (some p) l = specRvLinesGo p l := by
  induction l with
  | nil => intro p; rfl
  | cons s rest ih =>
    intro p
    obtain ⟨hs1, hs2, hs3⟩ := h s (List.mem_cons_self s rest)
    have hline := rvCmdLine_eq_spec s hs1 hs2 hs3
    have ih' := ih (fun x hx => h x (List.mem_cons_of_mem s hx)) s.relativePath
    by_cases hp : s.relativePath = p
    · subst hp
      simp [rvLinesGo, specRvLinesGo, hline, ih']
    · have hp' : ¬ p = s.relativePath := fun he => hp he.symm
      simp [rvLinesGo, specRvLinesGo, hp, hp', hline, ih']

/-- Helper: the full player loop (previous path initially `None`) equals
the spec's line list. -/
lemma rvLines_eq_spec (l : List SequenceSummary)
    (h : ∀ s ∈ l, s.relativePath ≠ "" ∧ s.relativePath.data.getLast? ≠ some '/' ∧
      (rvFullName s).data.head? ≠ some '/') :
    rvLinesGo none l = specRvLines l := by
  cases l with
  | nil => rfl
  | cons s rest =>
    obtain ⟨hs1, hs2, hs3⟩ := h s (List.mem_cons_self s rest)
    have hline := rvCmdLine_eq_spec s hs1 hs2 hs3
    have htail := rvLinesGo_eq_spec rest
      (fun x hx => h x (List.mem_cons_of_mem s hx)) s.relativePath
    simp [rvLinesGo, specRvLines, hline, htail]

/-- Helper: a lexicographic pair comparison with equal first components
reduces to the second components. -/
lemma lex_le_snd {α β : Type} [LinearOrder α] [LinearOrder β] (x : α) (u v : β)
    (h : toLex (x, u) ≤ toLex (x, v)) : u ≤ v := by
  rcases (Prod.Lex.le_iff (x, u) (x, v)).mp h with hlt | hconj
  · exact absurd hlt (lt_irrefl x)
  · exact hconj.2

/-- Helper: the canonical key orders an empty sub-category before a
non-empty one when relative path, base name and range text agree; stated
contrapositively on a key-ordered pair. -/
lemma keyLE_sub_empty (a b : SequenceSummary) (h : keyLE a b)
    (h1 : a.relativePath = b.relativePath) (h2 : a.baseName = b.baseName)
    (h3 : a.frameRange = b.frameRange) (h4 : b.subCategory = "") :
    a.subCategory = "" := by
  by_cases hsub : a.subCategory = ""
  · exact hsub
  · exfalso
    unfold keyLE sortKeyOf at h
    rw [h1, h2, h3, h4] at h
    have hb : (a.subCategory != "") = true := bne_iff_ne.mpr hsub
    rw [hb] at h
    have s1 := lex_le_snd _ _ _ h
    have s2 := lex_le_snd _ _ _ s1
    have s3 := lex_le_snd _ _ _ s2
    rcases (Prod.Lex.le_iff (true, a.subCategory.data) (("" != ""), ("" : String).data)).mp s3
      with hlt | hconj
    · have hf : (true : Bool) < ("" != "") := hlt
      have he : ("" != "") = false := by decide
      rw [he] at hf
      exact absurd hf (by decide)
    · have hf : (true : Bool) = ("" != "") := hconj.1
      have he : ("" != "") = false := by decide
      rw [he] at hf
      exact Bool.noConfusion hf

/-- Helper: the unit loop of `format_size` agrees everywhere with the
first-fitting-unit description (which produces nothing from `2 ^ 50`
on). -/
lemma format_size_eq_spec (n : Nat) : format_size n = specFormatSize n := by
  simp only [format_size, formatSizeGo, specFormatSize, specUnitIdx, unitNameOf]
  norm_num
  split_ifs <;> first | rfl | omega

/-- C1: for every sequence with a non-empty (sorted) frame list, the gap
analyzer computes `missingRanges` as the maximal ordered disjoint runs of
integers absent from the observed frame set strictly between the minimum
and the maximum, closing a length-one run as a single `start` and a longer
run as `start-end`, flushing a run still open at the maximum, and testing
presence by set membership so duplicates change nothing; in particular
frames 1,2,5,6,10 yield frame range `[1-10]` and missing runs
`3-4` and `7-9`, and a single-frame sequence yields no missing runs. -/
theorem claim_C1 :
    (∀ fs : List Nat, fs ≠ [] → List.Sorted (· ≤ ·) fs →
      missingRangesOf fs = specMissingRanges fs) ∧
    missingRangesOf [1, 2, 5, 6, 10] = ["3-4", "7-9"] ∧
    frameRangeOf [1, 2, 5, 6, 10] = "[1-10]" ∧
    (∀ n : Nat, missingRangesOf [n] = []) := by
  refine ⟨missingRanges_eq_spec, by decide, by decide, ?_⟩
  intro n
  simp [missingRangesOf, List.range', finishScan]

/-- C1 witness: the refinement instantiated on the concrete sorted frame
list 2,4,7 (with duplicates absent); both sides evaluate. -/
theorem claim_C1_witness :
    missingRangesOf [2, 4, 7] = specMissingRanges [2, 4, 7] :=
  claim_C1.1 [2, 4, 7] (by decide) (by decide)

/-- C2: the claim says a recursive scan of maximum depth `d` records each
pattern-matching file at directory level at most `d` exactly once and
deeper files not at all.  The code violates both parts: with depth 1 the
file `A/b.0001.exr` at level 2 is recorded (the `relative_depth` of a
direct child is computed as 1), and with depth 2 the level-2 file is
recorded twice because `explore_directory` both lets `os.walk` descend and
recurses manually.  This theorem evaluates the scan at the failing
inputs. -/
theorem claim_C2 :
    scanFiles true 1 walkExTree = [([], "a.0001.exr"), (["A"], "b.0001.exr")] ∧
    scanFiles true 2 walkExTree =
      [([], "a.0001.exr"), (["A"], "b.0001.exr"), (["A", "B"], "c.0001.exr"),
        (["A"], "b.0001.exr"), (["A", "B"], "c.0001.exr"), (["A", "B"], "c.0001.exr")] :=
  ⟨by decide, by decide⟩

/-- C3: the aggregation groups two matched files into the same sequence
exactly when their five-field keys agree: the bucket of any key holds, in
file order, precisely the frame numbers of the files whose key equals it;
padding is the literal digit count of the frame-number text, so `b.1.exr`
(padding 1) and `b.01.exr` (padding 2) have different keys, and
`c.depth.0001.exr` (sub-category `.depth`) and `c.0001.exr` (empty
sub-category) have different keys. -/
theorem claim_C3 :
    (∀ (files : List (String × String)) (k : SeqKey),
      groupFrames k (groupFiles files) = files.filterMap (keyFrames k)) ∧
    keyOfFile "." "b.1.exr" = some ⟨"b", "", 1, "exr", "."⟩ ∧
    keyOfFile "." "b.01.exr" = some ⟨"b", "", 2, "exr", "."⟩ ∧
    keyOfFile "." "c.depth.0001.exr" = some ⟨"c", ".depth", 4, "exr", "."⟩ ∧
    keyOfFile "." "c.0001.exr" = some ⟨"c", "", 4, "exr", "."⟩ ∧
    keyOfFile "." "b.1.exr" ≠ keyOfFile "." "b.01.exr" ∧
    keyOfFile "." "c.depth.0001.exr" ≠ keyOfFile "." "c.0001.exr" := by
  refine ⟨?_, by decide, by decide, by decide, by decide, by decide, by decide⟩
  intro files k
  have h := groupFrames_foldl files [] k
  simpa [groupFiles, groupFrames] using h

/-- C3 witness: the grouping equation on a concrete directory listing
containing two paddings of the same base name and a non-matching file. -/
theorem claim_C3_witness :
    groupFrames ⟨"b", "", 1, "exr", "."⟩
        (groupFiles [(".", "b.1.exr"), (".", "b.01.exr"), (".", "notes.txt"), (".", "b.3.exr")]) =
      [(".", "b.1.exr"), (".", "b.01.exr"), (".", "notes.txt"), (".", "b.3.exr")].filterMap
        (keyFrames ⟨"b", "", 1, "exr", "."⟩) :=
  claim_C3.1 [(".", "b.1.exr"), (".", "b.01.exr"), (".", "notes.txt"), (".", "b.3.exr")]
    ⟨"b", "", 1, "exr", "."⟩

/-- C4: in non-recursive mode, for every requested depth, the scan yields
exactly the files that are direct children of the root (relative path
`[]`, i.e. `"."`); no file of any subdirectory ever appears. -/
theorem claim_C4 (depth : Nat) (t : DirTree) :
    (scanFiles false depth t =
      if depth = 0 then [] else t.files.map (fun f => (([] : List String), f))) ∧
    (∀ (rel : List String) (f : String), (rel, f) ∈ scanFiles false depth t →
      rel = [] ∧ f ∈ t.files) := by
  refine ⟨scanFiles_nonrec depth t, ?_⟩
  intro rel f hmem
  rw [scanFiles_nonrec] at hmem
  by_cases h0 : depth = 0
  · rw [if_pos h0] at hmem
    cases hmem
  · rw [if_neg h0] at hmem
    obtain ⟨x, hx, he⟩ := List.mem_map.mp hmem
    injection he with he1 he2
    exact ⟨he1.symm, he2 ▸ hx⟩

/-- C4 witness: at requested depth 3 on the example tree, the one reported
file has root relative path and is a direct child of the root. -/
theorem claim_C4_witness :
    ([] : List String) = [] ∧ "a.0001.exr" ∈ walkExTree.files :=
  (claim_C4 3 walkExTree).2 [] "a.0001.exr" (by decide)

/-- C5 counterexample: with size inclusion enabled and a single zero-byte
file, `total_size` is 0, which is falsy, so the code reports `None` for
the average size instead of the claimed `totalSize // count = 0`. -/
theorem claim_C5_counterexample :
    averageSizeOf ([⟨1, none, some 0⟩] : List FrameRec) = none ∧
    averageSizeOf ([⟨1, none, some 0⟩] : List FrameRec) ≠
      some (totalSizeOf ([⟨1, none, some 0⟩] : List FrameRec) /
        ([⟨1, none, some 0⟩] : List FrameRec).length) :=
  ⟨by decide, by decide⟩

/-- C5 (amended): whenever the summed size is positive, the reported
average size is exactly `totalSize // count`, integer division rounding
down; when the summed size is zero the average is reported as absent
(`None`) rather than 0. -/
theorem claim_C5 (fs : List FrameRec) (h : 0 < totalSizeOf fs) :
    averageSizeOf fs = some (totalSizeOf fs / fs.length) := by
  have hne : fs ≠ [] := by
    intro he
    rw [he] at h
    simp [totalSizeOf] at h
  unfold averageSizeOf
  rw [if_pos ⟨by omega, hne⟩]

/-- C5 witness: two frames of 10 and 5 bytes give average `15 // 2 = 7`. -/
theorem claim_C5_witness :
    averageSizeOf ([⟨1, none, some 10⟩, ⟨2, none, some 5⟩] : List FrameRec) =
      some (totalSizeOf ([⟨1, none, some 10⟩, ⟨2, none, some 5⟩] : List FrameRec) /
        ([⟨1, none, some 10⟩, ⟨2, none, some 5⟩] : List FrameRec).length) :=
  claim_C5 ([⟨1, none, some 10⟩, ⟨2, none, some 5⟩] : List FrameRec) (by decide)

/-- C6 counterexample: at `2 ^ 50` bytes (1024 TB) the value still equals
1024 under the last unit, the loop is exhausted, and `format_size` returns
`None` instead of the string the claim promises for every non-negative
size. -/
theorem claim_C6_counterexample : format_size (2 ^ 50) = none := by decide

/-- C6 (amended): for every size below `2 ^ 50` bytes, `format_size`
returns the size divided by 1024 repeatedly, under the first unit among
bytes, KB, MB, GB, TB for which the value is below 1024, rendered with one
decimal place; for sizes of `2 ^ 50` bytes and beyond it returns no string
(`None`). -/
theorem claim_C6 (n : Nat) : format_size n = specFormatSize n :=
  format_size_eq_spec n

/-- C6 witness: 1536 bytes render as `1.5 KB` on both sides. -/
theorem claim_C6_witness : format_size 1536 = specFormatSize 1536 :=
  claim_C6 1536

/-- Helper: in player-command mode the renderer reduces to the player
loop over the sorted list, with a success flag, whatever the other display
flags are. -/
lemma display_rv (b1 b2 b3 : Bool) (rs : List SequenceSummary) :
    display_results b1 b2 b3 true rs = (rvLinesGo none (sortResults rs), true) := by
  unfold display_results displayBody
  rw [if_pos rfl]

/-- C7: in player-command mode the renderer emits, per sequence in sorted
order, exactly one line `rv <relativePath/ or nothing when at the scan
root>{base}{subCategory}.*.{extension}` with one blank line between
consecutive sequences of different relative paths (stated under the path
shapes a scan produces: non-empty relative directory without trailing
separator, names not starting with a separator); the output is identical
for every combination of the display flags, in particular a requested
resolution display changes nothing; and the root-level sequence `e`
produces the single line `rv e.*.exr`. -/
theorem claim_C7 :
    (∀ (rs : List SequenceSummary) (incRes incSize incCount : Bool),
      (∀ s ∈ rs, s.relativePath ≠ "" ∧ s.relativePath.data.getLast? ≠ some '/' ∧
        (rvFullName s).data.head? ≠ some '/') →
      display_results incRes incSize incCount true rs =
        (specRvLines (sortResults rs), true)) ∧
    (∀ (rs : List SequenceSummary) (b1 b2 b3 c1 c2 c3 : Bool),
      display_results b1 b2 b3 true rs = display_results c1 c2 c3 true rs) ∧
    (∀ b1 b2 b3 : Bool, display_results b1 b2 b3 true [exS1] = (["rv e.*.exr"], true)) := by
  refine ⟨?_, fun rs b1 b2 b3 c1 c2 c3 => by rw [display_rv, display_rv], fun b1 b2 b3 => ?_⟩
  · intro rs incRes incSize incCount h
    have hmem : ∀ s ∈ sortResults rs, s.relativePath ≠ "" ∧
        s.relativePath.data.getLast? ≠ some '/' ∧ (rvFullName s).data.head? ≠ some '/' :=
      fun s hs => h s ((List.perm_insertionSort keyLE rs).mem_iff.mp hs)
    rw [display_rv, rvLines_eq_spec (sortResults rs) hmem]
  · rw [display_rv]
    decide

/-- C7 witness: three sequences over two relative paths; one line each and
one blank separator, independently of the requested flags. -/
theorem claim_C7_witness :
    display_results true true true true [exS1, exS2, exS3] =
      (specRvLines (sortResults [exS1, exS2, exS3]), true) :=
  claim_C7.1 [exS1, exS2, exS3] true true true (by decide)

/-- C8: the renderer sorts the summary list by the canonical key
(relativePath, baseName, frameRangeText, subCategory-emptiness,
subCategory): the sorted list is a permutation of the input, pairwise
ordered under the key comparison, and in particular among entries with
equal relative path, base name and frame-range text every entry with an
empty sub-category precedes every entry with a non-empty one. -/
theorem claim_C8 (rs : List SequenceSummary) :
    (sortResults rs).Pairwise keyLE ∧
    (sortResults rs).Perm rs ∧
    (sortResults rs).Pairwise (fun a b =>
      a.relativePath = b.relativePath → a.baseName = b.baseName →
      a.frameRange = b.frameRange → b.subCategory = "" → a.subCategory = "") := by
  have hs : (sortResults rs).Pairwise keyLE := List.sorted_insertionSort keyLE rs
  refine ⟨hs, List.perm_insertionSort keyLE rs, ?_⟩
  exact hs.imp (fun hab h1 h2 h3 h4 => keyLE_sub_empty _ _ hab h1 h2 h3 h4)

/-- C8 witness: the sorted-by-key property on a concrete three-element
summary list. -/
theorem claim_C8_witness : (sortResults [exS1, exS2, exS3]).Pairwise keyLE :=
  (claim_C8 [exS1, exS2, exS3]).1

/-- C9: rendering is deterministic and idempotent: rendering the
already-sorted summary list produces exactly the output of rendering the
original list, for every combination of display options and both modes
(the renderer's only state effect is the in-place canonical sort, and
sorting a sorted list changes nothing). -/
theorem claim_C9 (incRes incSize incCount rvMode : Bool) (rs : List SequenceSummary) :
    display_results incRes incSize incCount rvMode (sortResults rs) =
      display_results incRes incSize incCount rvMode rs := by
  have hidem : sortResults (sortResults rs) = sortResults rs :=
    (List.sorted_insertionSort keyLE rs).insertionSort_eq
  unfold display_results
  rw [hidem]

/-- C9 witness: a second rendering pass over the sorted concrete list
reproduces the first pass byte for byte. -/
theorem claim_C9_witness :
    display_results true true true false (sortResults [exS1, exS2, exS3]) =
      display_results true true true false [exS1, exS2, exS3] :=
  claim_C9 true true true false [exS1, exS2, exS3]

/-- C10: table-mode rendering of an empty result list fails (the max of
the path lengths is taken over an empty collection) before printing
anything, for every flag combination, while player-command mode on an
empty list succeeds printing nothing. -/
theorem claim_C10 (incRes incSize incCount : Bool) :
    display_results incRes incSize incCount false [] = ([], false) ∧
    display_results incRes incSize incCount true [] = ([], true) :=
  ⟨rfl, rfl⟩

/-- C10 witness: both modes on the empty list with all optional columns
requested. -/
theorem claim_C10_witness :
    display_results true true true false [] = ([], false) ∧
    display_results true true true true [] = ([], true) :=
  claim_C10 true true true
